import Mathlib

/-!
Shallow embedding of the `cpu_simulator` repository and proofs about it.

The embedding follows `src/cpu/memory_bus.py`, `src/cpu/cache.py` and
`src/cpu/cpu.py`.  Python integers become `Int` (or `Nat` where the source
only ever produces non-negative values), Python lists become `List`, the
memory dictionary becomes a function `Nat → Int`, and Python exceptions
become `Except Err` results.  Instruction token lists are represented by
their parsed form (`Instr`); token lists whose parsing raises inside the
dispatched handler are represented by `Instr.BAD`, whose dispatch raises.

In the source, a handler that raises after mutating state leaves the
mutation in place.  In every handler all register and program-counter
mutations happen after the last possible raise, so returning the
pre-instruction state together with the error is exact for registers, the
program counter and the halted flag; only partially performed cache
write-backs of a failed memory operation are not retained by the
`Except`-style model.
-/

/-- Modelled from the spec: `utils/constants.py` is not under `src/`.
Bytes per word (spec §4.2, §8 scenarios: `word_size = 4`). -/
def WORD_SIZE : Nat := 4

/-- Modelled from the spec: `utils/constants.py` is not under `src/`.
Words per cache line (spec §8 scenario: `block_size = 8`). -/
def BLOCK_SIZE : Nat := 8

/-- Modelled from the spec: `utils/constants.py` is not under `src/`.
Cache size in bytes (spec §8 scenario: `cache_size = 2048`, giving
`cache_lines = 64`). -/
def CACHE_SIZE : Nat := 2048

/-- Modelled from the spec: `utils/constants.py` is not under `src/`.
Memory size in bytes (spec §2: 1 MB memory, `2^20`). -/
def MEMORY_SIZE : Nat := 2 ^ 20

/-- Modelled from the spec: `utils/constants.py` is not under `src/`.
Number of registers (spec §3: registers indexed 0–31). -/
def BUS_LENGTH : Nat := 32

/-- Modelled from the spec: `utils/constants.py` is not under `src/`.
Largest signed 16-bit value, used by offset validation (spec §4.3). -/
def INT16_MAX : Int := 32767

/-- Modelled from the spec: `utils/constants.py` is not under `src/`.
Smallest signed 16-bit value, used by offset validation (spec §4.3). -/
def INT16_MIN : Int := -32768

/-- Modelled from the spec: `utils/constants.py` is not under `src/`.
The fixed link register written by `JAL` (spec §4.3; the source's log
message and unit tests name R7). -/
def LINK_REGISTER : Nat := 7

/-- Error kinds corresponding to the distinct raise sites of the source
(spec §7 taxonomy).  `indexError` is Python's own `IndexError` from a list
subscript; `unknownOpcode` also stands for any parse failure raised inside
a dispatched handler. -/
inductive Err where
  | addressOutOfRange
  | invalidRegister
  | invalidOffset
  | invalidImmediate
  | invalidJumpTarget
  | invalidCacheCode
  | unknownOpcode
  | indexError
deriving DecidableEq

/-- Python list subscript `l[i]`: non-negative indices below the length,
negative indices wrapping from the end, `IndexError` otherwise. -/
def pyListGet {α : Type} (l : List α) (i : Int) : Except Err α :=
  if h : 0 ≤ i ∧ i < l.length then
    .ok (l.get ⟨i.toNat, by omega⟩)
  else if h2 : -(l.length : Int) ≤ i ∧ i < 0 then
    .ok (l.get ⟨(i + l.length).toNat, by omega⟩)
  else
    .error .indexError

/-- Python list subscript assignment `l[i] = v`, same index semantics as
`pyListGet`. -/
def pyListSet {α : Type} (l : List α) (i : Int) (v : α) : Except Err (List α) :=
  if 0 ≤ i ∧ i < l.length then
    .ok (l.set i.toNat v)
  else if -(l.length : Int) ≤ i ∧ i < 0 then
    .ok (l.set (i + l.length).toNat v)
  else
    .error .indexError

/-- `MemoryBus.word_mask` (`src/cpu/memory_bus.py`): `0xFFFFFFFF`, assigned
by the constructor and never changed. -/
def word_mask : Int := 0xFFFFFFFF

/-- `MemoryBus` (`src/cpu/memory_bus.py`): `memory_size` and the backing
dictionary `storage`, which defaults to 0 for unwritten addresses and only
ever holds masked values at validated (hence natural) addresses. -/
structure MemoryBus where
  memory_size : Nat
  storage : Nat → Int

namespace MemoryBus

/-- `MemoryBus(size)`: zero-initialised storage. -/
def new (size : Nat) : MemoryBus :=
  { memory_size := size, storage := fun _ => 0 }

/-- `MemoryBus._validate_address`: `address in range(memory_size)`; the
`isinstance` check cannot fail for integer addresses. -/
def _validate_address (m : MemoryBus) (address : Int) : Option Err :=
  if 0 ≤ address ∧ address < (m.memory_size : Int) then none
  else some .addressOutOfRange

/-- `MemoryBus.load_word` via `_access_memory` with no value: validate,
then read `storage.get(address, 0)`. -/
def load_word (m : MemoryBus) (address : Int) : Except Err Int :=
  match m._validate_address address with
  | some e => .error e
  | none => .ok (m.storage address.toNat)

/-- `MemoryBus.store_word` via `_access_memory` with a value: validate,
mask the value with `word_mask`, store it. -/
def store_word (m : MemoryBus) (address : Int) (value : Int) :
    Except Err MemoryBus :=
  match m._validate_address address with
  | some e => .error e
  | none =>
    .ok { m with
          storage := fun a =>
            if a = address.toNat then Int.land value word_mask
            else m.storage a }

end MemoryBus

/-- Structural floor-log₂, the embedding of `int(math.log2(n))` from
`src/cpu/cache.py` (exact for the power-of-two sizes the cache uses).  The
fuel argument makes it structurally recursive. -/
def intLog2Aux : Nat → Nat → Nat
  | 0, _ => 0
  | fuel + 1, n => if 2 ≤ n then intLog2Aux fuel (n / 2) + 1 else 0

/-- `int(math.log2(n))` for the cache's power-of-two configuration values. -/
def intLog2 (n : Nat) : Nat := intLog2Aux n n

/-- Cache `Block` (`src/cpu/cache.py`): tag, valid, dirty, data words.
Tags are natural numbers: every tag the source installs comes from
decoding a validated (hence non-negative) address. -/
structure Block where
  tag : Nat
  valid : Bool
  dirty : Bool
  data : List Int
deriving DecidableEq

/-- `Block(tag)` with default data: invalid, clean, `BLOCK_SIZE` zeros. -/
def Block.new (tag : Nat) : Block :=
  { tag := tag, valid := false, dirty := false,
    data := List.replicate BLOCK_SIZE 0 }

/-- `Cache.cache_lines = cache_size // (block_size * word_size)`. -/
def cache_lines : Nat := CACHE_SIZE / (BLOCK_SIZE * WORD_SIZE)

/-- `Cache` (`src/cpu/cache.py`): the list of cache lines; the
configuration fields of the Python object are the constants above. -/
structure Cache where
  blocks : List Block
deriving DecidableEq

namespace Cache

/-- `Cache()`: `cache_lines` fresh invalid blocks. -/
def new : Cache :=
  { blocks := List.replicate cache_lines (Block.new 0) }

/-- `Cache._get_offset_bits`: `int(math.log2(block_size))`. -/
def _get_offset_bits : Nat := intLog2 BLOCK_SIZE

/-- `Cache._get_index_bits`: `int(math.log2(cache_lines))`. -/
def _get_index_bits : Nat := intLog2 cache_lines

/-- `Cache._block_base_address`: rebuild the block's base byte address
from tag and index. -/
def _block_base_address (tag index : Nat) : Nat :=
  ((tag <<< (_get_offset_bits + _get_index_bits)) |||
    (index <<< _get_offset_bits)) * WORD_SIZE

/-- `Cache.decode_address`: byte address to `(tag, index, offset)`. -/
def decode_address (address : Nat) : Nat × Nat × Nat :=
  let offset_bits := _get_offset_bits
  let index_bits := _get_index_bits
  let word_address := address / WORD_SIZE
  let offset_mask := (1 <<< offset_bits) - 1
  let index_mask := (1 <<< index_bits) - 1
  (word_address >>> (offset_bits + index_bits),
    (word_address >>> offset_bits) &&& index_mask,
    word_address &&& offset_mask)

/-- `Cache.hit_or_miss`: valid line with matching tag. -/
def hit_or_miss (block : Block) (tag : Nat) : Bool :=
  block.valid && block.tag == tag

/-- The loop of `Cache._write_back`: `for i in range(n):
store_word(base + i * word_size, data[i])`, iterations `0 … n-1`. -/
def storeWords (m : MemoryBus) (base : Nat) (data : List Int) :
    Nat → Except Err MemoryBus
  | 0 => .ok m
  | n + 1 => do
    let m1 ← storeWords m base data n
    let v ← pyListGet data n
    m1.store_word ((base + n * WORD_SIZE : Nat) : Int) v

/-- The loop of `Cache.replace_block` that fills the new block:
`data[i] = load_word(base + i * word_size)` for `i in range(n)`. -/
def loadWords (m : MemoryBus) (base : Nat) :
    Nat → Except Err (List Int)
  | 0 => .ok []
  | n + 1 => do
    let l ← loadWords m base n
    let v ← m.load_word ((base + n * WORD_SIZE : Nat) : Int)
    .ok (l ++ [v])

/-- `Cache._write_back`: store the block's words to memory, then clear the
dirty flag. -/
def _write_back (block : Block) (base_address : Nat) (memory : MemoryBus) :
    Except Err (Block × MemoryBus) := do
  let m1 ← storeWords memory base_address block.data BLOCK_SIZE
  .ok ({ block with dirty := false }, m1)

/-- `Cache.replace_block`: write back the old line if valid and dirty,
then load a fresh line for `tag` from memory and install it at `index`. -/
def replace_block (tag index : Nat) (c : Cache) (memory : MemoryBus) :
    Except Err (Block × Cache × MemoryBus) := do
  let old_block ← pyListGet c.blocks (index : Int)
  let old_base := _block_base_address old_block.tag index
  let m1 ←
    if old_block.valid && old_block.dirty then do
      let r ← _write_back old_block old_base memory
      .ok r.2
    else
      .ok memory
  let new_base := _block_base_address tag index
  let data ← loadWords m1 new_base BLOCK_SIZE
  let new_block : Block :=
    { tag := tag, valid := true, dirty := false, data := data }
  let blocks1 ← pyListSet c.blocks (index : Int) new_block
  .ok (new_block, { blocks := blocks1 }, m1)

/-- `Cache._access_block`: decode, hit test, replace on miss.  The Python
method returns the block and offset; the block is an alias of
`blocks[index]`, so the model also returns the index (and the updated
cache and memory). -/
def _access_block (address : Nat) (c : Cache) (memory : MemoryBus) :
    Except Err (Block × Nat × Nat × Cache × MemoryBus) :=
  let d := decode_address address
  let tag := d.1
  let index := d.2.1
  let offset := d.2.2
  do
    let block ← pyListGet c.blocks (index : Int)
    if hit_or_miss block tag then
      .ok (block, index, offset, c, memory)
    else do
      let r ← replace_block tag index c memory
      .ok (r.1, index, offset, r.2.1, r.2.2)

/-- `Cache.read`: access the block and return `data[offset : offset+1]`. -/
def read (address : Nat) (c : Cache) (memory : MemoryBus) :
    Except Err (List Int × Cache × MemoryBus) := do
  let r ← _access_block address c memory
  .ok ((r.1.data.drop r.2.2.1).take 1, r.2.2.2.1, r.2.2.2.2)

/-- `Cache.write`: access the block, set `data[offset] = value`, mark the
line dirty (the mutation lands in `blocks[index]` through the alias). -/
def write (address : Nat) (value : Int) (c : Cache) (memory : MemoryBus) :
    Except Err (Cache × MemoryBus) := do
  let r ← _access_block address c memory
  let block := r.1
  let index := r.2.1
  let offset := r.2.2.1
  let c1 := r.2.2.2.1
  let m1 := r.2.2.2.2
  let data1 ← pyListSet block.data (offset : Int) value
  let block1 := { block with data := data1, dirty := true }
  let blocks1 ← pyListSet c1.blocks (index : Int) block1
  .ok ({ blocks := blocks1 }, m1)

/-- The loop of `Cache.flush` over `enumerate(blocks)`: write back each
valid dirty line, then clear its dirty and valid flags and zero its data. -/
def flushLoop (memory : MemoryBus) :
    List Block → Nat → Except Err (List Block × MemoryBus)
  | [], _ => .ok ([], memory)
  | block :: rest, index =>
    let base_address := _block_base_address block.tag index
    if block.valid && block.dirty then do
      let r ← _write_back block base_address memory
      let b1 :=
        { r.1 with
          dirty := false
          valid := false
          data := List.replicate BLOCK_SIZE 0 }
      let r2 ← flushLoop r.2 rest (index + 1)
      .ok (b1 :: r2.1, r2.2)
    else do
      let r2 ← flushLoop memory rest (index + 1)
      .ok (block :: r2.1, r2.2)

/-- `Cache.flush`: flush every valid dirty line. -/
def flush (c : Cache) (memory : MemoryBus) :
    Except Err (Cache × MemoryBus) := do
  let r ← flushLoop memory c.blocks 0
  .ok ({ blocks := r.1 }, r.2)

end Cache

/-- Parsed instructions (`src/cpu/cpu.py` dispatches on the opcode token
and parses the argument tokens inside each handler).  Register operands
carry the integer after the `R` prefix, which Python's `int` parse can make
negative; `J`/`JAL` targets passed `isdigit()` and are therefore naturals;
the `CACHE` code likewise.  `BAD` stands for any token list whose parsing
raises inside the dispatched handler (unknown opcode, malformed or missing
argument tokens, non-digit jump target or cache code). -/
inductive Instr where
  | ADD (rd rs rt : Int)
  | ADDI (rd rs imm : Int)
  | SUB (rd rs rt : Int)
  | SUBI (rd rs imm : Int)
  | SLT (rd rs rt : Int)
  | BNE (rs rt offset : Int)
  | J (target : Nat)
  | JAL (target : Nat)
  | LW (rt rs offset : Int)
  | SW (rt rs offset : Int)
  | CACHE (code : Nat)
  | HALT
  | NOP
  | BAD
deriving DecidableEq

/-- The `CPU` object's mutable state (`src/cpu/cpu.py`). -/
structure CPUState where
  registers : List Int
  pc : Int
  load_instructions : List Instr
  memory : MemoryBus
  cache : Option Cache
  halted : Bool

namespace CPU

/-- `CPU.__init__`: 32 zero registers, PC 0, no program, fresh memory, no
cache, not halted. -/
def new : CPUState :=
  { registers := List.replicate 32 0
    pc := 0
    load_instructions := []
    memory := MemoryBus.new MEMORY_SIZE
    cache := none
    halted := false }

/-- `CPU._valid_registers`: every index in `[0, BUS_LENGTH)` and, unless
`allow_r0`, none equal to 0. -/
def _valid_registers (indices : List Int) (allow_r0 : Bool) : Bool :=
  indices.all (fun idx => decide (0 ≤ idx ∧ idx < (BUS_LENGTH : Int))) &&
    (allow_r0 || !(indices.contains 0))

/-- `CPU._validate_offset`: multiple of the word size and within the
signed 16-bit range (the type checks cannot fail for integers). -/
def _validate_offset (offset : Int) (word_size : Nat) : Option Err :=
  if word_size = 0 then some .invalidOffset
  else if offset % (word_size : Int) ≠ 0 ∨
      ¬(INT16_MIN ≤ offset ∧ offset ≤ INT16_MAX) then
    some .invalidOffset
  else none

/-- `CPU._validate_immediate_value`: within the signed 32-bit range (the
string checks collapse for integer-valued tokens; non-numeric tokens are
`Instr.BAD`). -/
def _validate_immediate_value (value : Int) : Option Err :=
  if -(2 ^ 31) ≤ value ∧ value ≤ 2 ^ 31 - 1 then none
  else some .invalidImmediate

/-- `CPU.execute_arithmetic` (ADD/ADDI/SUB/SUBI).  In the register form
the third operand register is read before any validation; the validator is
then applied to source and destination only. -/
def execute_arithmetic (s : CPUState) (dest_idx src_idx third : Int)
    (op : Int → Int → Int) (immediate : Bool) : Except Err CPUState := do
  let value ←
    if immediate then
      match _validate_immediate_value third with
      | some e => .error e
      | none => .ok third
    else
      pyListGet s.registers third
  if _valid_registers [src_idx, dest_idx] false then do
    let src ← pyListGet s.registers src_idx
    let regs ← pyListSet s.registers dest_idx (op src value)
    .ok { s with registers := regs }
  else
    .error .invalidRegister

/-- `CPU.execute_slt`. -/
def execute_slt (s : CPUState) (dest_idx src_idx rt_idx : Int) :
    Except Err CPUState := do
  if _valid_registers [src_idx, rt_idx, dest_idx] false then do
    let a ← pyListGet s.registers src_idx
    let b ← pyListGet s.registers rt_idx
    let regs ← pyListSet s.registers dest_idx (if a < b then 1 else 0)
    .ok { s with registers := regs }
  else
    .error .invalidRegister

/-- `CPU.execute_bne`: immediate-validate the offset operand, validate the
registers, scale the offset by the word size, validate it, and branch when
the registers differ. -/
def execute_bne (s : CPUState) (rs_idx rt_idx offset0 : Int) :
    Except Err CPUState := do
  match _validate_immediate_value offset0 with
  | some e => .error e
  | none =>
    if _valid_registers [rs_idx, rt_idx] false then do
      let offset := offset0 * (WORD_SIZE : Int)
      match _validate_offset offset WORD_SIZE with
      | some e => .error e
      | none => do
        let a ← pyListGet s.registers rs_idx
        let b ← pyListGet s.registers rt_idx
        if a ≠ b then
          .ok { s with pc := s.pc + (WORD_SIZE : Int) + offset }
        else
          .ok s
    else
      .error .invalidRegister

/-- `CPU.execute_jump` (J/JAL): bounds-check the target instruction index,
save the return address in the link register for JAL, set
`pc = target * word_size`. -/
def execute_jump (s : CPUState) (target : Nat) (link : Bool) :
    Except Err CPUState := do
  if target < s.load_instructions.length then do
    let s1 ←
      if link then do
        let regs ← pyListSet s.registers (LINK_REGISTER : Int)
          (s.pc + (WORD_SIZE : Int))
        .ok { s with registers := regs }
      else
        .ok s
    .ok { s1 with pc := ((target * WORD_SIZE : Nat) : Int) }
  else
    .error .invalidJumpTarget

/-- Negative addresses handed to the cache always fail the memory layer's
range validation in the source (after at most a write-back of the evicted
line, which the `Except` model does not retain); the cache itself is
modelled over natural addresses. -/
def cacheRead (address : Int) (c : Cache) (m : MemoryBus) :
    Except Err (List Int × Cache × MemoryBus) :=
  if 0 ≤ address then Cache.read address.toNat c m
  else .error .addressOutOfRange

/-- Negative-address guard for `Cache.write`, as for `cacheRead`. -/
def cacheWrite (address : Int) (value : Int) (c : Cache) (m : MemoryBus) :
    Except Err (Cache × MemoryBus) :=
  if 0 ≤ address then Cache.write address.toNat value c m
  else .error .addressOutOfRange

/-- `CPU.execute_memory_action` (LW/SW): validate the offset, validate the
registers with `allow_r0`, compute `address = registers[rs] + offset`, and
route through the cache when one is attached. -/
def execute_memory_action (s : CPUState) (rt_idx rs_idx offset : Int)
    (lw : Bool) : Except Err CPUState := do
  match _validate_offset offset WORD_SIZE with
  | some e => .error e
  | none =>
    if _valid_registers [rt_idx, rs_idx] true then do
      let base ← pyListGet s.registers rs_idx
      let address := base + offset
      if lw then
        match s.cache with
        | some c => do
          let r ← cacheRead address c s.memory
          let value ← pyListGet r.1 0
          let regs ← pyListSet s.registers rt_idx value
          .ok
            { s with
              registers := regs
              cache := some r.2.1
              memory := r.2.2 }
        | none => do
          let value ← s.memory.load_word address
          let regs ← pyListSet s.registers rt_idx value
          .ok { s with registers := regs }
      else
        match s.cache with
        | some c => do
          let v ← pyListGet s.registers rt_idx
          let r ← cacheWrite address v c s.memory
          .ok { s with cache := some r.1, memory := r.2 }
        | none => do
          let v ← pyListGet s.registers rt_idx
          let m1 ← s.memory.store_word address v
          .ok { s with memory := m1 }
    else
      .error .invalidRegister

/-- `CPU.execute_cache`: 0 disables (flushing first), 1 enables cold,
2 flushes; other codes are invalid. -/
def execute_cache (s : CPUState) (code : Nat) : Except Err CPUState :=
  if code < 3 then
    match code, s.cache with
    | 0, some c => do
      let r ← Cache.flush c s.memory
      .ok { s with cache := none, memory := r.2 }
    | 0, none => .ok s
    | 1, none => .ok { s with cache := some Cache.new }
    | 1, some _ => .ok s
    | _, some c => do
      let r ← Cache.flush c s.memory
      .ok { s with cache := some r.1, memory := r.2 }
    | _, none => .ok s
  else
    .error .invalidCacheCode

/-- `CPU.dispatch_instruction`.  The pair's second component is the
exception propagating out of the handler, if any; in that case the first
component is the pre-instruction state (exact for registers, PC and the
halted flag, see the header note). -/
def dispatch_instruction (s : CPUState) (i : Instr) :
    CPUState × Option Err :=
  let r : Except Err CPUState :=
    match i with
    | .ADD rd rs rt => execute_arithmetic s rd rs rt (· + ·) false
    | .ADDI rd rs imm => execute_arithmetic s rd rs imm (· + ·) true
    | .SUB rd rs rt => execute_arithmetic s rd rs rt (· - ·) false
    | .SUBI rd rs imm => execute_arithmetic s rd rs imm (· - ·) true
    | .SLT rd rs rt => execute_slt s rd rs rt
    | .BNE rs rt offset => execute_bne s rs rt offset
    | .J target => execute_jump s target false
    | .JAL target => execute_jump s target true
    | .LW rt rs offset => execute_memory_action s rt rs offset true
    | .SW rt rs offset => execute_memory_action s rt rs offset false
    | .CACHE code => execute_cache s code
    | .HALT => do
      let s1 ←
        match s.cache with
        | some c => do
          let r ← Cache.flush c s.memory
          .ok { s with cache := some r.1, memory := r.2 }
        | none => .ok s
      .ok { s1 with halted := true }
    | .NOP => .ok s
    | .BAD => .error .unknownOpcode
  match r with
  | .ok s1 => (s1, none)
  | .error e => (s, some e)

/-- One iteration of the `while` body of `CPU.execute_instructions`
(assuming the loop condition holds): fetch `load_instructions[pc // 4]`
(outside the `try`, so an `IndexError` there is an uncaught crash,
modelled as `none`), dispatch, reset register 0, advance the PC when the
handler left it unchanged; on a handler exception set the halted flag. -/
def step (s : CPUState) : Option CPUState :=
  match pyListGet s.load_instructions (s.pc.fdiv (WORD_SIZE : Int)) with
  | .error _ => none
  | .ok instr =>
    match dispatch_instruction s instr with
    | (s1, some _) => some { s1 with halted := true }
    | (s1, none) =>
      match pyListSet s1.registers 0 0 with
      | .error _ => some { s1 with halted := true }
      | .ok regs =>
        let s2 := { s1 with registers := regs }
        if s2.pc = s.pc then some { s2 with pc := s2.pc + (WORD_SIZE : Int) }
        else some s2

/-- Up to `n` iterations of the fetch/execute loop of
`CPU.execute_instructions`; stops early when the loop condition fails,
`none` on an uncaught crash. -/
def run (n : Nat) (s : CPUState) : Option CPUState :=
  match n with
  | 0 => some s
  | n + 1 =>
    if s.halted = false ∧
        s.pc < ((s.load_instructions.length * WORD_SIZE : Nat) : Int) then
      match step s with
      | none => none
      | some s1 => run n s1
    else
      some s

end CPU

/-! Sample states used by concrete instantiations of the theorems below. -/

/-- A fresh memory of the default size. -/
def sampleMem : MemoryBus := MemoryBus.new MEMORY_SIZE

/-- A valid clean line with tag 0 and zeroed data. -/
def hitBlock : Block :=
  { tag := 0, valid := true, dirty := false, data := List.replicate 8 0 }

/-- A cache whose every line is valid, clean, tag 0. -/
def sampleHitCache : Cache := { blocks := List.replicate 64 hitBlock }

/-- `sampleHitCache` after `write 0 5`: line 0 dirty with first word 5. -/
def writtenCache : Cache :=
  { blocks :=
      (List.replicate 64 hitBlock).set 0
        { tag := 0, valid := true, dirty := true,
          data := (List.replicate 8 0).set 0 5 } }

/-- A valid dirty line with tag 0 and data words all 7. -/
def dirtyBlock : Block :=
  { tag := 0, valid := true, dirty := true, data := List.replicate 8 7 }

/-- A fresh cache whose line 0 is `dirtyBlock`. -/
def dirtyCache : Cache :=
  { blocks := (List.replicate 64 (Block.new 0)).set 0 dirtyBlock }

/-- An invalid yet dirty line, a state `flush` skips. -/
def invalidDirtyBlock : Block :=
  { tag := 0, valid := false, dirty := true, data := List.replicate 8 0 }

/-- A fresh cache whose line 0 is `invalidDirtyBlock`. -/
def invalidDirtyCache : Cache :=
  { blocks := (List.replicate 64 (Block.new 0)).set 0 invalidDirtyBlock }

/-- A machine about to execute `J 0` at PC 0: a jump to its own address. -/
def selfJumpState : CPUState :=
  { registers := List.replicate 32 0
    pc := 0
    load_instructions := [Instr.J 0]
    memory := sampleMem
    cache := none
    halted := false }

/-- A machine at PC 4 about to execute `J 0`, a taken jump elsewhere. -/
def jumpElsewhereState : CPUState :=
  { registers := List.replicate 32 0
    pc := 4
    load_instructions := [Instr.J 0, Instr.J 0]
    memory := sampleMem
    cache := none
    halted := false }

/-- A machine about to execute `J 1` in a one-instruction program: the
target equals the program length. -/
def jumpLenState : CPUState :=
  { registers := List.replicate 32 0
    pc := 0
    load_instructions := [Instr.J 1]
    memory := sampleMem
    cache := none
    halted := false }

/-- A machine with `R2 = 5`, `R31 = 9` and an empty program. -/
def negRtState : CPUState :=
  { registers := ((List.replicate 32 0).set 2 5).set 31 9
    pc := 0
    load_instructions := []
    memory := sampleMem
    cache := none
    halted := false }

/-- A machine about to execute `HALT`. -/
def haltProgState : CPUState :=
  { registers := List.replicate 32 0
    pc := 0
    load_instructions := [Instr.HALT]
    memory := sampleMem
    cache := none
    halted := false }

/-- `haltProgState` after one loop iteration. -/
def haltedState : CPUState :=
  { registers := (List.replicate 32 0).set 0 0
    pc := 4
    load_instructions := [Instr.HALT]
    memory := sampleMem
    cache := none
    halted := true }

/-! Helper lemmas. -/

/-- `ldiff` and `land` split the bits of the first argument. -/
theorem ldiff_add_land (a : Nat) : ∀ b : Nat, a.ldiff b + (a &&& b) = a := by
  induction a using Nat.binaryRec with
  | z => intro b; simp [Nat.ldiff, Nat.bitwise]
  | f b1 n ih =>
    intro b
    cases b using Nat.bitCasesOn with
    | h b2 m =>
      rw [Nat.ldiff_bit, Nat.land_bit, Nat.bit_val, Nat.bit_val, Nat.bit_val]
      have := ih m
      cases b1 <;> cases b2 <;> simp <;> omega

/-- `ldiff` from an all-ones mask is complement within the mask. -/
theorem ldiff_two_pow_sub_one (m n : Nat) :
    Nat.ldiff (2 ^ n - 1) m = 2 ^ n - 1 - m % 2 ^ n := by
  have h1 := ldiff_add_land (2 ^ n - 1) m
  have h2 : 2 ^ n - 1 &&& m = m % 2 ^ n := by
    rw [Nat.land_comm]; exact Nat.and_pow_two_sub_one_eq_mod m n
  have h3 : m % 2 ^ n < 2 ^ n := Nat.mod_lt m (Nat.pos_pow_of_pos n (by norm_num))
  omega

/-- Python's `value & 0xFFFFFFFF` on arbitrary (two's-complement) integers
is reduction modulo `2^32`. -/
theorem land_word_mask_emod (v : Int) :
    Int.land v word_mask = v % (2 ^ 32 : Int) := by
  have hm : word_mask = Int.ofNat 4294967295 := rfl
  cases v with
  | ofNat m =>
    rw [hm]
    show Int.ofNat (m &&& 4294967295) = _
    have h5 : m &&& 4294967295 = m % 2 ^ 32 := by
      have h4 : (4294967295 : Nat) = 2 ^ 32 - 1 := by norm_num
      rw [h4]
      exact Nat.and_pow_two_sub_one_eq_mod m 32
    rw [h5]
    simp only [Int.ofNat_eq_natCast]
    push_cast
    omega
  | negSucc m =>
    rw [hm]
    show Int.ofNat (Nat.ldiff 4294967295 m) = _
    have h4 : (4294967295 : Nat) = 2 ^ 32 - 1 := by norm_num
    rw [h4, ldiff_two_pow_sub_one]
    have h3 : m % 2 ^ 32 < 2 ^ 32 := Nat.mod_lt m (by norm_num)
    rw [Int.negSucc_eq]
    simp only [Int.ofNat_eq_natCast]
    push_cast [h3]
    omega

/-- `pyListGet` at an in-range natural index. -/
theorem pyListGet_nat {α : Type} (l : List α) (n : Nat) (h : n < l.length) :
    pyListGet l (n : Int) = .ok (l.get ⟨n, h⟩) := by
  have hc : 0 ≤ (n : Int) ∧ (n : Int) < l.length := by
    constructor <;> omega
  rw [pyListGet, dif_pos hc]
  simp

/-- `pyListGet` fails beyond the length. -/
theorem pyListGet_ge {α : Type} (l : List α) (n : Nat) (h : l.length ≤ n) :
    pyListGet l (n : Int) = .error .indexError := by
  rw [pyListGet, dif_neg (by omega), dif_neg (by omega)]

/-- `pyListSet` at an in-range natural index. -/
theorem pyListSet_nat {α : Type} (l : List α) (n : Nat) (v : α)
    (h : n < l.length) :
    pyListSet l (n : Int) v = .ok (l.set n v) := by
  have hc : 0 ≤ (n : Int) ∧ (n : Int) < l.length := by
    constructor <;> omega
  rw [pyListSet, if_pos hc]
  simp

/-- The offset bit width evaluates to 3. -/
theorem offset_bits_eq : Cache._get_offset_bits = 3 := rfl

/-- The index bit width evaluates to 6. -/
theorem index_bits_eq : Cache._get_index_bits = 6 := rfl

/-- The line count evaluates to 64. -/
theorem cache_lines_eq : cache_lines = 64 := rfl

/-- Base-address reconstruction in plain arithmetic. -/
theorem bba_arith (t i : Nat) (hi : i < cache_lines) :
    Cache._block_base_address t i = 2048 * t + 32 * i := by
  have hi64 : i < 64 := by rw [cache_lines_eq] at hi; exact hi
  have hor : t <<< 9 ||| i <<< 3 = 2 ^ 9 * t + i * 2 ^ 3 := by
    rw [Nat.shiftLeft_eq, Nat.shiftLeft_eq, Nat.mul_comm t]
    exact (Nat.mul_add_lt_is_or (by omega) t).symm
  show (t <<< (3 + 6) ||| i <<< 3) * 4 = 2048 * t + 32 * i
  rw [show (3 + 6 : Nat) = 9 from rfl, hor]
  ring

/-- Address decoding in plain arithmetic. -/
theorem decode_arith (a : Nat) :
    Cache.decode_address a =
      (a / 4 / 2 ^ 9, a / 4 / 2 ^ 3 % 2 ^ 6, a / 4 % 2 ^ 3) := by
  show ((a / 4) >>> (3 + 6), (a / 4) >>> 3 &&& (1 <<< 6 - 1),
      (a / 4) &&& (1 <<< 3 - 1)) = _
  rw [show (3 + 6 : Nat) = 9 from rfl,
    Nat.shiftRight_eq_div_pow, Nat.shiftRight_eq_div_pow,
    show (1 <<< 6 - 1 : Nat) = 2 ^ 6 - 1 from rfl,
    show (1 <<< 3 - 1 : Nat) = 2 ^ 3 - 1 from rfl,
    Nat.and_pow_two_sub_one_eq_mod, Nat.and_pow_two_sub_one_eq_mod]

/-- Distinct cache indices give disjoint write-back byte ranges. -/
theorem bba_addr_ne (t1 i1 t2 i2 k1 k2 : Nat)
    (h1 : i1 < 64) (h2 : i2 < 64) (hk1 : k1 < 8) (hk2 : k2 < 8)
    (hne : i1 ≠ i2) :
    2048 * t1 + 32 * i1 + k1 * 4 ≠ 2048 * t2 + 32 * i2 + k2 * 4 := by
  omega

/-- Bind of a successful `Except`. -/
theorem exbind_ok {ε α β : Type} (y : α) (f : α → Except ε β) :
    (Except.ok y >>= f) = f y := rfl

/-- Bind of a failed `Except`. -/
theorem exbind_err {ε α β : Type} (e : ε) (f : α → Except ε β) :
    ((Except.error e : Except ε α) >>= f) = .error e := rfl

/-- Address validation succeeds on in-range natural addresses. -/
theorem validate_address_ok (m : MemoryBus) (a : Nat) (h : a < m.memory_size) :
    m._validate_address (a : Int) = none := by
  rw [MemoryBus._validate_address, if_pos]
  constructor <;> omega

/-- `store_word` at an in-range natural address. -/
theorem store_word_nat (m : MemoryBus) (a : Nat) (v : Int)
    (h : a < m.memory_size) :
    m.store_word (a : Int) v =
      .ok { m with
            storage := fun x =>
              if x = a then Int.land v word_mask else m.storage x } := by
  rw [MemoryBus.store_word, validate_address_ok m a h]
  simp

/-- `load_word` at an in-range natural address. -/
theorem load_word_nat (m : MemoryBus) (a : Nat) (h : a < m.memory_size) :
    m.load_word (a : Int) = .ok (m.storage a) := by
  rw [MemoryBus.load_word, validate_address_ok m a h]
  simp

/-- The write-back loop: success and resulting storage, provided the whole
block range is inside memory. -/
theorem storeWords_ok (data : List Int) (base : Nat) (m : MemoryBus)
    (n : Nat) (hn : n ≤ data.length)
    (hr : base + n * WORD_SIZE ≤ m.memory_size) :
    ∃ m1, Cache.storeWords m base data n = .ok m1 ∧
      m1.memory_size = m.memory_size ∧
      (∀ i, i < n → m1.storage (base + i * WORD_SIZE) =
        Int.land (data.getD i 0) word_mask) ∧
      (∀ a, (∀ i, i < n → a ≠ base + i * WORD_SIZE) →
        m1.storage a = m.storage a) := by
  simp only [WORD_SIZE] at *
  induction n with
  | zero =>
    exact ⟨m, rfl, rfl, fun i hi => absurd hi (by omega), fun a _ => rfl⟩
  | succ k ih =>
    obtain ⟨m1, he, hsz, hin, hout⟩ := ih (by omega) (by omega)
    have hget : pyListGet data ((k : Nat) : Int) =
        .ok (data.get ⟨k, by omega⟩) := pyListGet_nat data k (by omega)
    have hst := store_word_nat m1 (base + k * 4)
      (data.get ⟨k, by omega⟩) (by omega)
    refine ⟨{ m1 with
              storage := fun x =>
                if x = base + k * 4 then
                  Int.land (data.get ⟨k, by omega⟩) word_mask
                else m1.storage x }, ?_, ?_, ?_, ?_⟩
    · rw [Cache.storeWords]
      simp only [WORD_SIZE]
      rw [he, exbind_ok, hget, exbind_ok, hst]
    · simpa using hsz
    · intro i hi
      rcases Nat.lt_succ_iff_lt_or_eq.mp hi with hik | hik
      · have hne : base + i * 4 ≠ base + k * 4 := by omega
        dsimp only
        rw [if_neg hne]
        exact hin i hik
      · subst hik
        dsimp only
        rw [if_pos rfl]
        congr 1
        rw [List.getD_eq_getElem?_getD, List.getElem?_eq_getElem (by omega)]
        simp [List.get_eq_getElem]
    · intro a ha
      dsimp only
      rw [if_neg (ha k (by omega))]
      exact hout a (fun i hik => ha i (by omega))

/-- The refill loop: success and the loaded words, provided the whole
block range is inside memory. -/
theorem loadWords_ok (base : Nat) (m : MemoryBus) (n : Nat)
    (hr : base + n * WORD_SIZE ≤ m.memory_size) :
    ∃ l, Cache.loadWords m base n = .ok l ∧ l.length = n ∧
      ∀ i, i < n → l.getD i 0 = m.storage (base + i * WORD_SIZE) := by
  simp only [WORD_SIZE] at *
  induction n with
  | zero =>
    exact ⟨[], rfl, rfl, fun i hi => absurd hi (by omega)⟩
  | succ k ih =>
    obtain ⟨l, he, hlen, hin⟩ := ih (by omega)
    have hld := load_word_nat m (base + k * 4) (by omega)
    refine ⟨l ++ [m.storage (base + k * 4)], ?_, ?_, ?_⟩
    · rw [Cache.loadWords]
      simp only [WORD_SIZE]
      rw [he, exbind_ok, hld, exbind_ok]
    · simp [hlen]
    · intro i hi
      rcases Nat.lt_succ_iff_lt_or_eq.mp hi with hik | hik
      · rw [List.getD_eq_getElem?_getD, List.getElem?_append_left (by omega),
          ← List.getD_eq_getElem?_getD]
        exact hin i hik
      · subst hik
        rw [List.getD_eq_getElem?_getD, List.getElem?_append_right (by omega),
          hlen]
        simp

/-- C1: for every non-negative tag and every index below `cache_lines`,
decoding any byte address inside the block whose base address is
reconstructed by `_block_base_address tag index` (base plus `k * word_size`
for `k < block_size`) recovers exactly `(tag, index)` with offset `k`. -/
theorem decode_encode_symmetry (tag index k : Nat)
    (hindex : index < cache_lines) (hk : k < BLOCK_SIZE) :
    Cache.decode_address
        (Cache._block_base_address tag index + k * WORD_SIZE) =
      (tag, index, k) := by
  rw [bba_arith tag index hindex, decode_arith]
  have hi64 : index < 64 := by rw [cache_lines_eq] at hindex; exact hindex
  have hk8 : k < 8 := hk
  have hws : WORD_SIZE = 4 := rfl
  rw [hws]
  simp only [Prod.mk.injEq]
  refine ⟨?_, ?_, ?_⟩ <;> omega

/-- Witness for C1 at `tag = 5`, `index = 2`, `k = 3`. -/
theorem decode_encode_symmetry_witness :
    Cache.decode_address (Cache._block_base_address 5 2 + 3 * WORD_SIZE) =
      (5, 2, 3) :=
  decode_encode_symmetry 5 2 3 (by decide) (by decide)

/-- C9: storing any integer value at an in-range address succeeds, masking
the value to its low 32 bits (`value & 0xFFFFFFFF`, which equals reduction
modulo `2^32`), and a subsequent load returns that masked value, which
lies in `[0, 2^32)`. -/
theorem store_then_load_masks (m : MemoryBus) (a : Int) (v : Int)
    (h0 : 0 ≤ a) (h1 : a < (m.memory_size : Int)) :
    ∃ m1, m.store_word a v = .ok m1 ∧
      m1.load_word a = .ok (v % (2 ^ 32 : Int)) ∧
      Int.land v word_mask = v % (2 ^ 32 : Int) ∧
      0 ≤ v % (2 ^ 32 : Int) ∧ v % (2 ^ 32 : Int) < (2 ^ 32 : Int) := by
  have hv : m._validate_address a = none := by
    rw [MemoryBus._validate_address, if_pos ⟨h0, h1⟩]
  refine ⟨{ m with
            storage := fun x =>
              if x = a.toNat then Int.land v word_mask
              else m.storage x }, ?_, ?_, land_word_mask_emod v, ?_, ?_⟩
  · rw [MemoryBus.store_word, hv]
  · rw [MemoryBus.load_word]
    show (match ({ m with
        storage := fun x =>
          if x = a.toNat then Int.land v word_mask
          else m.storage x } : MemoryBus)._validate_address a with
      | some e => Except.error e
      | none => _) = _
    rw [show ({ m with
        storage := fun x =>
          if x = a.toNat then Int.land v word_mask
          else m.storage x } : MemoryBus)._validate_address a = none from hv]
    dsimp only
    rw [if_pos rfl, land_word_mask_emod v]
  · exact Int.emod_nonneg v (by norm_num)
  · exact Int.emod_lt_of_pos v (by norm_num)

/-- Witness for C9 at address 3, value −1 in a fresh default memory. -/
theorem store_then_load_masks_witness :
    ∃ m1, (MemoryBus.new MEMORY_SIZE).store_word 3 (-1) = .ok m1 ∧
      m1.load_word 3 = .ok ((-1) % (2 ^ 32 : Int)) ∧
      Int.land (-1) word_mask = (-1) % (2 ^ 32 : Int) ∧
      0 ≤ (-1) % (2 ^ 32 : Int) ∧ (-1) % (2 ^ 32 : Int) < (2 ^ 32 : Int) :=
  store_then_load_masks (MemoryBus.new MEMORY_SIZE) 3 (-1) (by decide)
    (by decide)

/-- A successful `pyListSet` at a natural index is an in-range `List.set`. -/
theorem pyListSet_ok_nat {α : Type} (l : List α) (n : Nat) (v : α)
    (l1 : List α) (h : pyListSet l (n : Int) v = .ok l1) :
    n < l.length ∧ l1 = l.set n v := by
  by_cases hc : (0 : Int) ≤ (n : Int) ∧ (n : Int) < l.length
  · rw [pyListSet, if_pos hc] at h
    injection h with h
    refine ⟨by omega, ?_⟩
    rw [← h]
    simp
  · have h0 : (0 : Int) ≤ (n : Int) := by omega
    have hn : ¬((n : Int) < 0) := by omega
    rw [pyListSet, if_neg hc, if_neg (by omega)] at h
    cases h

/-- `_access_block` reports the index decoded from the address. -/
theorem access_block_index (address : Nat) (c : Cache) (m : MemoryBus)
    (r : Block × Nat × Nat × Cache × MemoryBus)
    (h : Cache._access_block address c m = .ok r) :
    r.2.1 = (Cache.decode_address address).2.1 := by
  simp only [Cache._access_block] at h
  cases hg :
      pyListGet c.blocks ((Cache.decode_address address).2.1 : Int) with
  | error e =>
    rw [hg, exbind_err] at h
    cases h
  | ok blk =>
    rw [hg, exbind_ok] at h
    by_cases hh : Cache.hit_or_miss blk (Cache.decode_address address).1
    · rw [if_pos hh] at h
      injection h with h
      rw [← h]
    · rw [if_neg hh] at h
      cases hr : Cache.replace_block (Cache.decode_address address).1
          (Cache.decode_address address).2.1 c m with
      | error e =>
        rw [hr, exbind_err] at h
        cases h
      | ok rr =>
        rw [hr, exbind_ok] at h
        injection h with h
        rw [← h]

/-- C5: whenever `Cache.write` returns, the cache line selected by the
index bits of the written address is dirty, on hits and on misses alike. -/
theorem write_marks_dirty (address : Nat) (value : Int) (c : Cache)
    (m : MemoryBus) (c1 : Cache) (m1 : MemoryBus)
    (h : Cache.write address value c m = .ok (c1, m1)) :
    ∃ b, c1.blocks.get? (Cache.decode_address address).2.1 = some b ∧
      b.dirty = true := by
  simp only [Cache.write] at h
  cases hacc : Cache._access_block address c m with
  | error e =>
    rw [hacc, exbind_err] at h
    cases h
  | ok r =>
    rw [hacc, exbind_ok] at h
    have hidx := access_block_index address c m r hacc
    cases hd : pyListSet r.1.data ((r.2.2.1 : Nat) : Int) value with
    | error e =>
      rw [hd, exbind_err] at h
      cases h
    | ok data1 =>
      rw [hd, exbind_ok] at h
      cases hb : pyListSet r.2.2.2.1.blocks ((r.2.1 : Nat) : Int)
          { r.1 with data := data1, dirty := true } with
      | error e =>
        rw [hb, exbind_err] at h
        cases h
      | ok blocks1 =>
        rw [hb, exbind_ok] at h
        injection h with h1
        obtain ⟨hc1, hm1⟩ := Prod.mk.injEq .. ▸ h1
        obtain ⟨hlt, hset⟩ := pyListSet_ok_nat _ _ _ _ hb
        refine ⟨{ r.1 with data := data1, dirty := true }, ?_, rfl⟩
        rw [← hc1, ← hidx, hset]
        simp only [List.get?_eq_getElem?]
        exact List.getElem?_set_self (by simpa using hlt)

/-- Witness for C5: a hit write at address 0 in a fully valid cache. -/
theorem write_marks_dirty_witness :
    ∃ b, writtenCache.blocks.get? 0 = some b ∧ b.dirty = true :=
  write_marks_dirty 0 5 sampleHitCache sampleMem writtenCache sampleMem rfl

/-- C4 (amended): replacing a valid dirty line with a different tag whose
block ranges lie inside memory first writes the old line's `block_size`
data words (masked to 32 bits by `store_word`) to the store at the base
address reconstructed from the old tag and the index, then installs a
fresh valid clean line carrying the new tag whose data is read from the
resulting store at the base address reconstructed from the new tag. -/
theorem replace_block_write_back (tag index : Nat) (c : Cache)
    (m : MemoryBus) (old : Block)
    (hold : c.blocks.get? index = some old)
    (hvalid : old.valid = true) (hdirty : old.dirty = true)
    (htag : tag ≠ old.tag)
    (hdlen : old.data.length = BLOCK_SIZE)
    (hmem : m.memory_size = MEMORY_SIZE)
    (htr : tag < 2 ^ 9) (hotr : old.tag < 2 ^ 9)
    (hidx : index < cache_lines) :
    ∃ b c1 m1, Cache.replace_block tag index c m = .ok (b, c1, m1) ∧
      (∀ i, i < BLOCK_SIZE →
        m1.storage (Cache._block_base_address old.tag index +
            i * WORD_SIZE) =
          Int.land (old.data.getD i 0) word_mask) ∧
      c1.blocks.get? index = some b ∧
      b.tag = tag ∧ b.valid = true ∧ b.dirty = false ∧
      b.data.length = BLOCK_SIZE ∧
      (∀ i, i < BLOCK_SIZE →
        b.data.getD i 0 =
          m1.storage (Cache._block_base_address tag index +
            i * WORD_SIZE)) := by
  obtain ⟨hlt, hget⟩ := List.get?_eq_some.mp hold
  have hi64 : index < 64 := by rw [cache_lines_eq] at hidx; exact hidx
  have e1 : pyListGet c.blocks (index : Int) = .ok old := by
    rw [pyListGet_nat c.blocks index hlt, hget]
  have hbaseO : Cache._block_base_address old.tag index =
      2048 * old.tag + 32 * index := bba_arith old.tag index hidx
  have hbaseN : Cache._block_base_address tag index =
      2048 * tag + 32 * index := bba_arith tag index hidx
  have hrangeO : Cache._block_base_address old.tag index +
      BLOCK_SIZE * WORD_SIZE ≤ m.memory_size := by
    rw [hbaseO, hmem]
    show 2048 * old.tag + 32 * index + 8 * 4 ≤ 2 ^ 20
    omega
  obtain ⟨mWB, e2, hsz, hin, hout⟩ :=
    storeWords_ok old.data (Cache._block_base_address old.tag index) m
      BLOCK_SIZE (le_of_eq hdlen.symm) (by
        have : BLOCK_SIZE * WORD_SIZE = 32 := rfl
        omega)
  have e3 : Cache._write_back old
      (Cache._block_base_address old.tag index) m =
      .ok ({ old with dirty := false }, mWB) := by
    rw [Cache._write_back, e2, exbind_ok]
  have hrangeN : Cache._block_base_address tag index +
      BLOCK_SIZE * WORD_SIZE ≤ mWB.memory_size := by
    rw [hbaseN, hsz, hmem]
    show 2048 * tag + 32 * index + 8 * 4 ≤ 2 ^ 20
    omega
  obtain ⟨ldata, e4, hlen8, hread⟩ :=
    loadWords_ok (Cache._block_base_address tag index) mWB BLOCK_SIZE (by
      have : BLOCK_SIZE * WORD_SIZE = 32 := rfl
      omega)
  have e5 : pyListSet c.blocks (index : Int)
      { tag := tag, valid := true, dirty := false, data := ldata } =
      .ok (c.blocks.set index
        { tag := tag, valid := true, dirty := false, data := ldata }) :=
    pyListSet_nat c.blocks index _ hlt
  refine ⟨{ tag := tag, valid := true, dirty := false, data := ldata },
    { blocks := c.blocks.set index
        { tag := tag, valid := true, dirty := false, data := ldata } },
    mWB, ?_, ?_, ?_, rfl, rfl, rfl, by rw [hlen8], ?_⟩
  · simp only [Cache.replace_block]
    rw [e1, exbind_ok]
    rw [hvalid, hdirty]
    rw [if_pos (show (true && true) = true from rfl)]
    rw [e3, exbind_ok, exbind_ok, e4, exbind_ok, e5, exbind_ok]
  · intro i hi
    exact hin i hi
  · simp only [List.get?_eq_getElem?]
    exact List.getElem?_set_self (by simpa using hlt)
  · intro i hi
    exact hread i hi

/-- Counterexample for C4 as stated: with the default 1 MB store, a new
tag of 512 puts the refill range at byte `2^20`, out of memory range, so
`replace_block` raises instead of installing anything, for an otherwise
well-formed valid dirty old line. -/
theorem replace_block_range_counterexample :
    Cache.replace_block 512 0 dirtyCache sampleMem =
      .error .addressOutOfRange := rfl

/-- Witness for C4 (amended) at `tag = 1`, `index = 0` over `dirtyCache`. -/
theorem replace_block_write_back_witness :
    ∃ b c1 m1, Cache.replace_block 1 0 dirtyCache sampleMem =
        .ok (b, c1, m1) ∧
      (∀ i, i < BLOCK_SIZE →
        m1.storage (Cache._block_base_address dirtyBlock.tag 0 +
            i * WORD_SIZE) =
          Int.land (dirtyBlock.data.getD i 0) word_mask) ∧
      c1.blocks.get? 0 = some b ∧
      b.tag = 1 ∧ b.valid = true ∧ b.dirty = false ∧
      b.data.length = BLOCK_SIZE ∧
      (∀ i, i < BLOCK_SIZE →
        b.data.getD i 0 =
          m1.storage (Cache._block_base_address 1 0 + i * WORD_SIZE)) :=
  replace_block_write_back 1 0 dirtyCache sampleMem dirtyBlock rfl rfl rfl
    (by decide) rfl rfl (by decide) (by decide) (by decide)

/-- The flush loop: success, all lines clean, every valid dirty line's
data written at its reconstructed base, other addresses untouched —
provided lines occupy indices below 64, dirty lines are valid with
in-range tags and full-length data. -/
theorem flushLoop_ok (bl : List Block) : ∀ (start : Nat) (m : MemoryBus),
    m.memory_size = MEMORY_SIZE →
    start + bl.length ≤ 64 →
    (∀ b, b ∈ bl → b.dirty = true →
      b.valid = true ∧ b.tag < 2 ^ 9 ∧ b.data.length = BLOCK_SIZE) →
    ∃ bl1 m1, Cache.flushLoop m bl start = .ok (bl1, m1) ∧
      m1.memory_size = m.memory_size ∧
      bl1.length = bl.length ∧
      (∀ b, b ∈ bl1 → b.dirty = false) ∧
      (∀ j old, bl.get? j = some old → old.valid = true →
        old.dirty = true → ∀ i, i < BLOCK_SIZE →
          m1.storage (2048 * old.tag + 32 * (start + j) + i * WORD_SIZE) =
            Int.land (old.data.getD i 0) word_mask) ∧
      (∀ a, (∀ j old, bl.get? j = some old → old.valid = true →
          old.dirty = true → ∀ i, i < BLOCK_SIZE →
            a ≠ 2048 * old.tag + 32 * (start + j) + i * WORD_SIZE) →
        m1.storage a = m.storage a) := by
  induction bl with
  | nil =>
    intro start m hmem hlen hblocks
    refine ⟨[], m, rfl, rfl, rfl, by simp, ?_, fun a _ => rfl⟩
    intro j old hj
    simp at hj
  | cons b rest ih =>
    intro start m hmem hlen hblocks
    have hrlen : start + 1 + rest.length ≤ 64 := by
      simp only [List.length_cons] at hlen
      omega
    have hstart64 : start < 64 := by
      simp only [List.length_cons] at hlen
      omega
    by_cases hbd : (b.valid && b.dirty) = true
    · obtain ⟨hv, hd⟩ : b.valid = true ∧ b.dirty = true := by
        simpa using hbd
      obtain ⟨_, htagb, hdl⟩ := hblocks b (List.mem_cons_self b rest) hd
      have hbase : Cache._block_base_address b.tag start =
          2048 * b.tag + 32 * start :=
        bba_arith b.tag start (by rw [cache_lines_eq]; omega)
      obtain ⟨mA, eA, hszA, hinA, houtA⟩ :=
        storeWords_ok b.data (Cache._block_base_address b.tag start) m
          BLOCK_SIZE (le_of_eq hdl.symm) (by
            rw [hbase, hmem]
            show 2048 * b.tag + 32 * start + 8 * 4 ≤ 2 ^ 20
            omega)
      have eWB : Cache._write_back b
          (Cache._block_base_address b.tag start) m =
          .ok ({ b with dirty := false }, mA) := by
        rw [Cache._write_back, eA, exbind_ok]
      obtain ⟨bl1, m1, eL, hsz1, hlen1, hdirty1, hin1, hout1⟩ :=
        ih (start + 1) mA (by rw [hszA, hmem]) hrlen
          (fun bb hbb hbbd => hblocks bb (List.mem_cons_of_mem b hbb) hbbd)
      refine ⟨(⟨b.tag, false, false, List.replicate BLOCK_SIZE 0⟩ : Block)
          :: bl1, m1, ?_, ?_, ?_, ?_, ?_, ?_⟩
      · simp only [Cache.flushLoop]
        rw [if_pos hbd, eWB, exbind_ok]
        dsimp only
        rw [eL, exbind_ok]
      · rw [hsz1, hszA]
      · simp [hlen1]
      · intro bb hbb
        rcases List.mem_cons.mp hbb with h | h
        · rw [h]
        · exact hdirty1 bb h
      · intro j old hj hov hod i hi
        cases j with
        | zero =>
          have hj0 : b = old := by
            rw [List.get?_cons_zero] at hj
            injection hj
          subst hj0
          have hfr : m1.storage (2048 * b.tag + 32 * (start + 0) +
              i * WORD_SIZE) = mA.storage (2048 * b.tag +
              32 * (start + 0) + i * WORD_SIZE) := by
            apply hout1
            intro j2 old2 hj2 hov2 hod2 i2 hi2
            obtain ⟨hj2lt, _⟩ := List.get?_eq_some.mp hj2
            have hws : WORD_SIZE = 4 := rfl
            rw [hws]
            have hiw : i < 8 := hi
            have hi2w : i2 < 8 := hi2
            exact bba_addr_ne b.tag (start + 0) old2.tag (start + 1 + j2)
              i i2 (by omega) (by omega) hiw hi2w (by omega)
          rw [hfr]
          have := hinA i hi
          rw [hbase] at this
          rw [show 32 * (start + 0) = 32 * start from by omega]
          exact this
        | succ j2 =>
          rw [List.get?_cons_succ] at hj
          have := hin1 j2 old hj hov hod i hi
          rw [show 32 * (start + 1 + j2) = 32 * (start + (j2 + 1))
            from by omega] at this
          exact this
      · intro a ha
        have h1 : m1.storage a = mA.storage a := by
          apply hout1
          intro j2 old2 hj2 hov2 hod2 i2 hi2
          have := ha (j2 + 1) old2 (by rw [List.get?_cons_succ]; exact hj2)
            hov2 hod2 i2 hi2
          rw [show 32 * (start + (j2 + 1)) = 32 * (start + 1 + j2)
            from by omega] at this
          exact this
        have h2 : mA.storage a = m.storage a := by
          apply houtA
          intro i hi
          have := ha 0 b List.get?_cons_zero hv hd i hi
          rw [hbase]
          rw [show 32 * (start + 0) = 32 * start from by omega] at this
          exact this
        rw [h1, h2]
    · have hbdirty : b.dirty = false := by
        by_contra h
        have hd : b.dirty = true := by
          revert h
          cases b.dirty <;> simp
        obtain ⟨hv, _, _⟩ := hblocks b (List.mem_cons_self b rest) hd
        rw [hv, hd] at hbd
        exact hbd rfl
      obtain ⟨bl1, m1, eL, hsz1, hlen1, hdirty1, hin1, hout1⟩ :=
        ih (start + 1) m hmem hrlen
          (fun bb hbb hbbd => hblocks bb (List.mem_cons_of_mem b hbb) hbbd)
      refine ⟨b :: bl1, m1, ?_, hsz1, by simp [hlen1], ?_, ?_, ?_⟩
      · simp only [Cache.flushLoop]
        rw [if_neg hbd, eL, exbind_ok]
      · intro bb hbb
        rcases List.mem_cons.mp hbb with h | h
        · rw [h]
          exact hbdirty
        · exact hdirty1 bb h
      · intro j old hj hov hod i hi
        cases j with
        | zero =>
          have hj0 : b = old := by
            rw [List.get?_cons_zero] at hj
            injection hj
          rw [← hj0] at hod
          rw [hod] at hbdirty
          cases hbdirty
        | succ j2 =>
          rw [List.get?_cons_succ] at hj
          have := hin1 j2 old hj hov hod i hi
          rw [show 32 * (start + 1 + j2) = 32 * (start + (j2 + 1))
            from by omega] at this
          exact this
      · intro a ha
        apply hout1
        intro j2 old2 hj2 hov2 hod2 i2 hi2
        have := ha (j2 + 1) old2 (by rw [List.get?_cons_succ]; exact hj2)
          hov2 hod2 i2 hi2
        rw [show 32 * (start + (j2 + 1)) = 32 * (start + 1 + j2)
          from by omega] at this
        exact this

/-- C6 (amended): for cache states whose lines fit the 64 slots and where
every dirty line is valid with an in-range tag and full-length data,
`flush` succeeds, afterwards no line is dirty, and each previously valid
dirty line's data words (masked to 32 bits by `store_word`) are in the
store at the base address reconstructed from its tag and index. -/
theorem flush_clears_dirty_amended (c : Cache) (m : MemoryBus)
    (hlen : c.blocks.length = cache_lines)
    (hmem : m.memory_size = MEMORY_SIZE)
    (hblocks : ∀ b, b ∈ c.blocks → b.dirty = true →
      b.valid = true ∧ b.tag < 2 ^ 9 ∧ b.data.length = BLOCK_SIZE) :
    ∃ c1 m1, Cache.flush c m = .ok (c1, m1) ∧
      (∀ b, b ∈ c1.blocks → b.dirty = false) ∧
      (∀ index old, c.blocks.get? index = some old → old.valid = true →
        old.dirty = true → ∀ i, i < BLOCK_SIZE →
          m1.storage (Cache._block_base_address old.tag index +
            i * WORD_SIZE) = Int.land (old.data.getD i 0) word_mask) := by
  obtain ⟨bl1, m1, eL, hsz, hl, hdirty, hin, hfr⟩ :=
    flushLoop_ok c.blocks 0 m hmem
      (by rw [cache_lines_eq] at hlen; omega) hblocks
  refine ⟨{ blocks := bl1 }, m1, ?_, hdirty, ?_⟩
  · rw [Cache.flush, eL, exbind_ok]
  · intro index old hj hov hod i hi
    obtain ⟨hjlt, _⟩ := List.get?_eq_some.mp hj
    have hidx : index < cache_lines := by rw [← hlen]; exact hjlt
    have := hin index old hj hov hod i hi
    rw [Nat.zero_add] at this
    rw [bba_arith old.tag index hidx]
    exact this

/-- Counterexample for C6 as stated: a line that is dirty but not valid is
skipped by `flush`, which returns successfully with that line still
reporting `dirty = true`. -/
theorem flush_invalid_dirty_counterexample :
    (Cache.flush invalidDirtyCache sampleMem).toOption.map
      (fun r => (r.1.blocks.get? 0).map (fun b => b.dirty)) =
      some (some true) := rfl

/-- Witness for C6 (amended) on a cache holding one valid dirty line. -/
theorem flush_clears_dirty_amended_witness :
    ∃ c1 m1, Cache.flush dirtyCache sampleMem = .ok (c1, m1) ∧
      (∀ b, b ∈ c1.blocks → b.dirty = false) ∧
      (∀ index old, dirtyCache.blocks.get? index = some old →
        old.valid = true → old.dirty = true → ∀ i, i < BLOCK_SIZE →
          m1.storage (Cache._block_base_address old.tag index +
            i * WORD_SIZE) = Int.land (old.data.getD i 0) word_mask) :=
  flush_clears_dirty_amended dirtyCache sampleMem rfl rfl (by decide)

/-- A handler that raises leaves the machine state unchanged (for the
components the model tracks exactly: registers, PC, halted flag). -/
theorem dispatch_some_state (s sd : CPUState) (i : Instr) (e : Err)
    (h : CPU.dispatch_instruction s i = (sd, some e)) : sd = s := by
  simp only [CPU.dispatch_instruction] at h
  split at h
  · injection h with h1 h2
    cases h2
  · injection h with h1 h2
    exact h1.symm

/-- A failing `pyListSet` at index 0 means the list is empty. -/
theorem pyListSet_zero_err {α : Type} (l : List α) (v : α) (e : Err)
    (h : pyListSet l (0 : Int) v = .error e) : l = [] := by
  by_cases hl : l.length = 0
  · exact List.length_eq_zero.mp hl
  · rw [pyListSet, if_pos ⟨le_refl 0, by omega⟩] at h
    cases h

/-- After the register-0 reset, slot 0 reads 0. -/
theorem reset_getD (l l1 : List Int) (h : pyListSet l (0 : Int) 0 = .ok l1) :
    l1.getD 0 0 = 0 := by
  by_cases hl : l.length = 0
  · have : l = [] := List.length_eq_zero.mp hl
    subst this
    rw [pyListSet, if_neg (by simp), if_neg (by simp)] at h
    cases h
  · obtain ⟨hlt, hset⟩ := pyListSet_ok_nat l 0 0 l1 (by exact_mod_cast h)
    subst hset
    cases l with
    | nil => cases hlt
    | cons x xs => rfl

/-- One loop iteration preserves a zero register 0. -/
theorem step_r0 (s s1 : CPUState) (h : CPU.step s = some s1)
    (h0 : s.registers.getD 0 0 = 0) : s1.registers.getD 0 0 = 0 := by
  simp only [CPU.step] at h
  split at h
  · cases h
  · rename_i instr hfetch
    split at h
    · rename_i sd e hdisp
      injection h with h1
      have hsd := dispatch_some_state s sd instr e hdisp
      rw [← h1]
      show sd.registers.getD 0 0 = 0
      rw [hsd]
      exact h0
    · rename_i sd hdisp
      split at h
      · rename_i e hreset
        injection h with h1
        have : sd.registers = [] := pyListSet_zero_err sd.registers 0 e hreset
        rw [← h1]
        show sd.registers.getD 0 0 = 0
        rw [this]
        rfl
      · rename_i regs hreset
        have hget : regs.getD 0 0 = 0 := reset_getD sd.registers regs hreset
        split at h <;> (injection h with h1; rw [← h1]; exact hget)

/-- C3: the R0 invariant.  If register 0 is 0 at the start, then after
every iteration of the fetch/execute loop — including the final one,
whether the machine halts via HALT, via a handler error, or by running off
the program — register 0 is still 0. -/
theorem r0_invariant (n : Nat) : ∀ (s s1 : CPUState),
    s.registers.getD 0 0 = 0 → CPU.run n s = some s1 →
    s1.registers.getD 0 0 = 0 := by
  induction n with
  | zero =>
    intro s s1 h0 h
    injection h with h
    rw [← h]
    exact h0
  | succ k ih =>
    intro s s1 h0 h
    rw [CPU.run] at h
    split at h
    · split at h
      · cases h
      · rename_i s2 hstep
        exact ih s2 s1 (step_r0 s s2 hstep h0) h
    · injection h with h
      rw [← h]
      exact h0

/-- Witness for C3: one iteration of a `HALT` program. -/
theorem r0_invariant_witness : haltedState.registers.getD 0 0 = 0 :=
  r0_invariant 1 haltProgState haltedState rfl rfl

/-- C8: executing `J`/`JAL` whose target equals the program length (one
past the last valid index) raises `invalidJumpTarget`; the loop then halts
the machine with PC, registers (including the link register) and all other
state unchanged. -/
theorem jump_to_program_length_halts (s : CPUState) (i : Instr) (t : Nat)
    (hH : s.halted = false)
    (hi : i = Instr.J t ∨ i = Instr.JAL t)
    (ht : t = s.load_instructions.length)
    (hf : pyListGet s.load_instructions (s.pc.fdiv (WORD_SIZE : Int)) =
      .ok i) :
    CPU.dispatch_instruction s i = (s, some .invalidJumpTarget) ∧
    CPU.step s = some { s with halted := true } := by
  have hex : ∀ link, CPU.execute_jump s t link =
      .error .invalidJumpTarget := by
    intro link
    rw [CPU.execute_jump, if_neg (by omega)]
  have hdisp : CPU.dispatch_instruction s i =
      (s, some .invalidJumpTarget) := by
    rcases hi with hi | hi <;> subst hi <;>
      simp only [CPU.dispatch_instruction, hex]
  refine ⟨hdisp, ?_⟩
  rw [CPU.step, hf]
  dsimp only
  rw [hdisp]

/-- Witness for C8: `J 1` in a one-instruction program. -/
theorem jump_to_program_length_halts_witness :
    CPU.dispatch_instruction jumpLenState (Instr.J 1) =
      (jumpLenState, some .invalidJumpTarget) ∧
    CPU.step jumpLenState = some { jumpLenState with halted := true } :=
  jump_to_program_length_halts jumpLenState (Instr.J 1) 1 rfl
    (Or.inl rfl) rfl rfl

/-- C2 (amended): a loop step dispatching `J t` or `JAL t` with a valid
target, on a machine with the standard register file, completes with
`PC = t * word_size` — except when `t * word_size` equals the PC of the
jump instruction itself: the loop's `pc == current_pc` check then treats
the jump as not taken and advances PC to `t * word_size + word_size`. -/
theorem jump_step_pc_amended (s : CPUState) (i : Instr) (t : Nat)
    (hH : s.halted = false)
    (hreg : LINK_REGISTER < s.registers.length)
    (hi : i = Instr.J t ∨ i = Instr.JAL t)
    (ht : t < s.load_instructions.length)
    (hf : pyListGet s.load_instructions (s.pc.fdiv (WORD_SIZE : Int)) =
      .ok i) :
    ∃ s1, CPU.step s = some s1 ∧
      s1.pc = (if ((t * WORD_SIZE : Nat) : Int) = s.pc
        then ((t * WORD_SIZE : Nat) : Int) + (WORD_SIZE : Int)
        else ((t * WORD_SIZE : Nat) : Int)) := by
  have h0 : (0 : Nat) < s.registers.length := by
    have : LINK_REGISTER = 7 := rfl
    omega
  rcases hi with hi | hi <;> subst hi
  · have hex : CPU.execute_jump s t false =
        .ok { s with pc := ((t * WORD_SIZE : Nat) : Int) } := by
      rw [CPU.execute_jump, if_pos ht]
      rfl
    have hdisp : CPU.dispatch_instruction s (Instr.J t) =
        ({ s with pc := ((t * WORD_SIZE : Nat) : Int) }, none) := by
      simp only [CPU.dispatch_instruction, hex]
    have hreset : pyListSet ({ s with
        pc := ((t * WORD_SIZE : Nat) : Int) } : CPUState).registers
        ((0 : Nat) : Int) 0 = .ok (s.registers.set 0 0) :=
      pyListSet_nat s.registers 0 0 h0
    rw [CPU.step, hf]
    dsimp only
    rw [hdisp]
    dsimp only
    rw [show ((0 : Nat) : Int) = (0 : Int) from rfl] at hreset
    rw [hreset]
    dsimp only
    by_cases hc : ((t * WORD_SIZE : Nat) : Int) = s.pc
    · rw [if_pos hc, if_pos hc]
      exact ⟨_, rfl, rfl⟩
    · rw [if_neg hc, if_neg hc]
      exact ⟨_, rfl, rfl⟩
  · have hlink : pyListSet s.registers ((LINK_REGISTER : Nat) : Int)
        (s.pc + (WORD_SIZE : Int)) =
        .ok (s.registers.set LINK_REGISTER (s.pc + (WORD_SIZE : Int))) :=
      pyListSet_nat s.registers LINK_REGISTER _ hreg
    have hex : CPU.execute_jump s t true =
        .ok { s with
              registers :=
                s.registers.set LINK_REGISTER (s.pc + (WORD_SIZE : Int))
              pc := ((t * WORD_SIZE : Nat) : Int) } := by
      rw [CPU.execute_jump, if_pos ht]
      dsimp only
      rw [hlink]
      rfl
    have hdisp : CPU.dispatch_instruction s (Instr.JAL t) =
        ({ s with
           registers :=
             s.registers.set LINK_REGISTER (s.pc + (WORD_SIZE : Int))
           pc := ((t * WORD_SIZE : Nat) : Int) }, none) := by
      simp only [CPU.dispatch_instruction, hex]
    have hreset : pyListSet
        (s.registers.set LINK_REGISTER (s.pc + (WORD_SIZE : Int)))
        (0 : Int) 0 =
        .ok ((s.registers.set LINK_REGISTER
          (s.pc + (WORD_SIZE : Int))).set 0 0) := by
      have := pyListSet_nat
        (s.registers.set LINK_REGISTER (s.pc + (WORD_SIZE : Int))) 0 0
        (by simpa using h0)
      exact_mod_cast this
    rw [CPU.step, hf]
    dsimp only
    rw [hdisp]
    dsimp only
    rw [hreset]
    dsimp only
    by_cases hc : ((t * WORD_SIZE : Nat) : Int) = s.pc
    · rw [if_pos hc, if_pos hc]
      exact ⟨_, rfl, rfl⟩
    · rw [if_neg hc, if_neg hc]
      exact ⟨_, rfl, rfl⟩

/-- Counterexample for C2 as stated: a jump to its own instruction index
(`J 0` at PC 0).  The handler sets `PC = 0`, but the loop sees the PC
unchanged and advances it, so the step ends with `PC = 4`, not
`t * word_size = 0`. -/
theorem jump_self_counterexample :
    (CPU.step selfJumpState).map (fun s1 => s1.pc) = some 4 ∧
    ((0 * WORD_SIZE : Nat) : Int) ≠ 4 :=
  ⟨rfl, by decide⟩

/-- Witness for C2 (amended): `J 0` executed from PC 4. -/
theorem jump_step_pc_amended_witness :
    ∃ s1, CPU.step jumpElsewhereState = some s1 ∧
      s1.pc = (if ((0 * WORD_SIZE : Nat) : Int) = jumpElsewhereState.pc
        then ((0 * WORD_SIZE : Nat) : Int) + (WORD_SIZE : Int)
        else ((0 * WORD_SIZE : Nat) : Int)) :=
  jump_step_pc_amended jumpElsewhereState (Instr.J 0) 0 rfl (by decide)
    (Or.inl rfl) (by decide) rfl

/-- C7, failing input: `ADD R1, R2, R-1` with `R2 = 5`, `R31 = 9`.  The
handler reads `registers[rt_idx]` before any validation and never
validates `Rt`, so the Python negative index silently aliases `R31`: the
instruction succeeds with no error and `R1 = 5 + 9 = 14`, where the spec
requires an invalid-register failure. -/
theorem add_negative_rt_silently_succeeds :
    (CPU.dispatch_instruction negRtState (Instr.ADD 1 2 (-1))).2 = none ∧
    (CPU.dispatch_instruction negRtState
      (Instr.ADD 1 2 (-1))).1.registers.getD 1 0 = 14 :=
  ⟨rfl, rfl⟩

/-- Counterexample for C10 as stated: `ADD R1, R0, R40` names register 0
as `Rs`, but the handler reads `registers[40]` before validating, so the
raised error is Python's `IndexError`, not the invalid-register error. -/
theorem r0_source_indexerror_counterexample :
    (CPU.dispatch_instruction CPU.new (Instr.ADD 1 0 40)).2 =
      some .indexError ∧
    Err.indexError ≠ Err.invalidRegister :=
  ⟨rfl, by decide⟩

/-- C10 (amended): on the standard 32-register file, an arithmetic or SLT
instruction that names register 0 as a source operand fails with the
invalid-register error, provided no earlier argument processing fails
first (for ADD/SUB the third register operand must be a valid Python list
index, for ADDI/SUBI the immediate must be in the signed 32-bit range);
SLT also rejects register 0 in its `Rt` operand, unconditionally. -/
theorem r0_source_rejected_amended (s : CPUState) (rd rs rt rs2 imm : Int)
    (hregs : s.registers.length = 32)
    (hrs : rs = 0)
    (hrt1 : -32 ≤ rt) (hrt2 : rt < 32)
    (him1 : -(2 ^ 31) ≤ imm) (him2 : imm ≤ 2 ^ 31 - 1) :
    (CPU.dispatch_instruction s (Instr.ADD rd rs rt)).2 =
      some .invalidRegister ∧
    (CPU.dispatch_instruction s (Instr.SUB rd rs rt)).2 =
      some .invalidRegister ∧
    (CPU.dispatch_instruction s (Instr.ADDI rd rs imm)).2 =
      some .invalidRegister ∧
    (CPU.dispatch_instruction s (Instr.SUBI rd rs imm)).2 =
      some .invalidRegister ∧
    (CPU.dispatch_instruction s (Instr.SLT rd rs rt)).2 =
      some .invalidRegister ∧
    (CPU.dispatch_instruction s (Instr.SLT rd rs2 0)).2 =
      some .invalidRegister := by
  subst hrs
  have hval : ∀ idxs : List Int, idxs.contains 0 = true →
      CPU._valid_registers idxs false = false := by
    intro idxs hmem
    rw [CPU._valid_registers, hmem]
    simp
  have hrtget : ∃ v, pyListGet s.registers rt = .ok v := by
    by_cases hneg : 0 ≤ rt
    · exact ⟨s.registers.get ⟨rt.toNat, by omega⟩,
        by rw [pyListGet, dif_pos ⟨hneg, by omega⟩]⟩
    · exact ⟨s.registers.get ⟨(rt + s.registers.length).toNat, by omega⟩,
        by rw [pyListGet, dif_neg (by omega),
          dif_pos ⟨by omega, by omega⟩]⟩
  obtain ⟨v, hv⟩ := hrtget
  have harith : ∀ op, CPU.execute_arithmetic s rd 0 rt op false =
      .error .invalidRegister := by
    intro op
    rw [CPU.execute_arithmetic]
    dsimp only
    rw [hv, hval [0, rd] (by simp)]
    simp only [Bool.false_eq_true, if_false]
    rfl
  have himm : CPU._validate_immediate_value imm = none := by
    rw [CPU._validate_immediate_value, if_pos ⟨him1, him2⟩]
  have harithi : ∀ op, CPU.execute_arithmetic s rd 0 imm op true =
      .error .invalidRegister := by
    intro op
    rw [CPU.execute_arithmetic]
    dsimp only
    rw [himm, hval [0, rd] (by simp)]
    simp only [Bool.false_eq_true, if_false]
    rfl
  have hslt1 : CPU.execute_slt s rd 0 rt = .error .invalidRegister := by
    rw [CPU.execute_slt, hval [0, rt, rd] (by simp)]
    simp only [Bool.false_eq_true, if_false]
  have hslt2 : CPU.execute_slt s rd rs2 0 = .error .invalidRegister := by
    rw [CPU.execute_slt, hval [rs2, 0, rd] (by simp)]
    simp only [Bool.false_eq_true, if_false]
  refine ⟨?_, ?_, ?_, ?_, ?_, ?_⟩ <;>
    simp only [CPU.dispatch_instruction, harith, harithi, hslt1, hslt2]

/-- Witness for C10 (amended) on a fresh machine with `Rs = 0`. -/
theorem r0_source_rejected_amended_witness :
    (CPU.dispatch_instruction CPU.new (Instr.ADD 1 0 2)).2 =
      some .invalidRegister ∧
    (CPU.dispatch_instruction CPU.new (Instr.SUB 1 0 2)).2 =
      some .invalidRegister ∧
    (CPU.dispatch_instruction CPU.new (Instr.ADDI 1 0 5)).2 =
      some .invalidRegister ∧
    (CPU.dispatch_instruction CPU.new (Instr.SUBI 1 0 5)).2 =
      some .invalidRegister ∧
    (CPU.dispatch_instruction CPU.new (Instr.SLT 1 0 2)).2 =
      some .invalidRegister ∧
    (CPU.dispatch_instruction CPU.new (Instr.SLT 1 3 0)).2 =
      some .invalidRegister :=
  r0_source_rejected_amended CPU.new 1 0 2 3 5 rfl rfl (by decide)
    (by decide) (by decide) (by decide)
